import Mathlib

/- Shallow embedding of the CloudDrive repository: the storage-access broker
   (the s3-sign edge function), the client-side metadata operations of the
   dashboard (folder creation, recursive folder deletion, share-link creation)
   and the database schema for the files and shared_links tables.  JavaScript
   strings are modelled as lists of characters, timestamps as natural numbers
   of milliseconds since the epoch, and the object store as the list of keys
   that currently exist. -/

abbrev Str := List Char

def str (s : String) : Str := s.data

/-- JS `s.startsWith(p)`: the second argument is a character-for-character
prefix of the first. -/
def jsStartsWith : Str → Str → Bool
  | _, [] => true
  | [], _ :: _ => false
  | c :: s, p :: ps => decide (p = c) && jsStartsWith s ps

/-- JS truthiness of a possibly-undefined string: `undefined` and the empty
string are falsy, every other string is truthy. -/
def jsTruthy : Option Str → Bool
  | none => false
  | some s => !s.isEmpty

/-- JS `new Date(x)` where a null timestamp coerces to the epoch. -/
def jsDate : Option Nat → Nat
  | none => 0
  | some t => t

/-- JS string interpolation of a possibly-undefined string. -/
def optStrJS : Option Str → Str
  | some s => s
  | none => str "undefined"

def natStr (n : Nat) : Str := (toString n).data

/-- Characters left unescaped by JS `encodeURIComponent`:
ASCII letters, digits and `- _ . ! ~ * apostrophe ( )`. -/
def isUnescapedJS (c : Char) : Bool :=
  (65 ≤ c.toNat && c.toNat ≤ 90) || (97 ≤ c.toNat && c.toNat ≤ 122) ||
  (48 ≤ c.toNat && c.toNat ≤ 57) || c.toNat == 45 || c.toNat == 95 ||
  c.toNat == 46 || c.toNat == 33 || c.toNat == 126 || c.toNat == 42 ||
  c.toNat == 39 || c.toNat == 40 || c.toNat == 41

/-- UTF-8 byte sequence of a code point. -/
def utf8Bytes (n : Nat) : List Nat :=
  if n < 128 then [n]
  else if n < 2048 then [192 + n / 64, 128 + n % 64]
  else if n < 65536 then [224 + n / 4096, 128 + n / 64 % 64, 128 + n % 64]
  else [240 + n / 262144, 128 + n / 4096 % 64, 128 + n / 64 % 64, 128 + n % 64]

def hexDigitChar (n : Nat) : Char :=
  if n < 10 then Char.ofNat (48 + n) else Char.ofNat (55 + n)

def percentEncodeByte (b : Nat) : Str :=
  ['%', hexDigitChar (b / 16), hexDigitChar (b % 16)]

/-- Per-character action of JS `encodeURIComponent`. -/
def encodeURIComponentChar (c : Char) : Str :=
  if isUnescapedJS c then [c] else (utf8Bytes c.toNat).flatMap percentEncodeByte

/-- JS `encodeURIComponent`. -/
def encodeURIComponent (s : Str) : Str := s.flatMap encodeURIComponentChar

def dquoteC : Char := Char.ofNat 34

def aposC : Char := Char.ofNat 39

/-- The template literal used for forced downloads, filled with the already
URI-encoded name. -/
def attachmentDisposition (enc : Str) : Str :=
  str "attachment; filename=" ++ [dquoteC] ++ enc ++ [dquoteC] ++
  str "; filename*=UTF-8" ++ [aposC, aposC] ++ enc

/- Database schema (files and shared_links tables). -/

structure FileRec where
  id : Str
  user_id : Str
  name : Str
  size : Nat
  mime_type : Str
  s3_key : Str
  parent_id : Option Str
deriving DecidableEq

structure LinkRow where
  file_id : Str
  token : Str
  created_by : Str
  expires_at : Option Nat
  views : Nat
deriving DecidableEq

/-- The state visible to the broker: the two metadata tables and the set of
keys that currently exist in the object store. -/
structure BrokerEnv where
  links : List LinkRow
  files : List FileRec
  s3 : List Str
deriving DecidableEq

/-- The JSON request body of the s3-sign function; absent fields are `none`. -/
structure SignReq where
  action : Option Str
  fileName : Option Str
  fileType : Option Str
  key : Option Str
  token : Option Str
deriving DecidableEq

inductive S3Method where
  | put
  | get
deriving DecidableEq

/-- The parameters baked into a signed URL by the broker. -/
structure SignedUrl where
  method : S3Method
  key : Str
  contentType : Option Str
  responseContentDisposition : Option Str
  responseContentType : Option Str
  expiresIn : Nat
deriving DecidableEq

/-- The fields of the files row that public_download selects and returns. -/
structure PubFileInfo where
  s3_key : Str
  name : Str
  size : Nat
  mime_type : Str
deriving DecidableEq

def pubInfo (f : FileRec) : PubFileInfo :=
  { s3_key := f.s3_key, name := f.name, size := f.size, mime_type := f.mime_type }

inductive SignOk where
  | publicFile (url : SignedUrl) (file : PubFileInfo)
  | uploaded (url : SignedUrl) (key : Str)
  | downloadUrl (url : SignedUrl)
  | deleted
deriving DecidableEq

/-- A response body is either the JSON result of a successful action or a
JSON object of shape error-message-string. -/
inductive SignBody where
  | ok (r : SignOk)
  | err (msg : Str)
deriving DecidableEq

structure SignResp where
  status : Nat
  body : SignBody
deriving DecidableEq

/-- PostgREST `.single()`: succeeds only when the query returned exactly one
row. -/
def singleRow {α : Type} : List α → Option α
  | [r] => some r
  | _ => none

def unauthorizedMsg : Str := str "Unauthorized"

def unauthorizedAccessMsg : Str := str "Unauthorized access to file"

/-- The TypeError produced by calling startsWith on an undefined key. -/
def typeErrorKeyMsg : Str :=
  str "Cannot read properties of undefined (reading " ++ [aposC] ++
  str "startsWith" ++ [aposC] ++ str ")"

def unknownActionMsg (a : Option Str) : Str :=
  str "Unknown action: " ++ optStrJS a

def octetStreamType : Str := str "application/octet-stream"

/-- The storage-access broker (the s3-sign edge function, part_004 revision):
dispatches on the action string, validates share tokens for public_download,
enforces the startsWith ownership check for download and delete, and returns
the HTTP status together with the (unchanged except for delete) state. -/
def s3Sign (env : BrokerEnv) (user : Option Str) (req : SignReq) (now : Nat) :
    SignResp × BrokerEnv :=
  if req.action = some (str "public_download") then
    match req.token with
    | none => (⟨400, SignBody.err (str "Token required")⟩, env)
    | some t =>
      if t.isEmpty then (⟨400, SignBody.err (str "Token required")⟩, env)
      else
        match singleRow (env.links.filter (fun l => decide (l.token = t))) with
        | none => (⟨400, SignBody.err (str "Invalid or expired link")⟩, env)
        | some l =>
          if jsDate l.expires_at < now then
            (⟨400, SignBody.err (str "Link expired")⟩, env)
          else
            match singleRow (env.files.filter (fun f => decide (f.id = l.file_id))) with
            | none => (⟨400, SignBody.err (str "File not found")⟩, env)
            | some f =>
              (⟨200, SignBody.ok (SignOk.publicFile
                { method := S3Method.get, key := f.s3_key, contentType := none,
                  responseContentDisposition :=
                    some (attachmentDisposition (encodeURIComponent f.name)),
                  responseContentType := some octetStreamType,
                  expiresIn := 3600 } (pubInfo f))⟩, env)
  else
    match user with
    | none => (⟨401, SignBody.err unauthorizedMsg⟩, env)
    | some uid =>
      if req.action = some (str "upload") then
        let fileKey := uid ++ ['/'] ++ natStr now ++ ['-'] ++ optStrJS req.fileName
        (⟨200, SignBody.ok (SignOk.uploaded
          { method := S3Method.put, key := fileKey, contentType := req.fileType,
            responseContentDisposition := none, responseContentType := none,
            expiresIn := 3600 } fileKey)⟩, env)
      else if req.action = some (str "download") then
        match req.key with
        | none => (⟨400, SignBody.err typeErrorKeyMsg⟩, env)
        | some k =>
          if jsStartsWith k uid = false then
            (⟨400, SignBody.err unauthorizedAccessMsg⟩, env)
          else
            match req.fileName with
            | some n =>
              if n.isEmpty then
                (⟨200, SignBody.ok (SignOk.downloadUrl
                  { method := S3Method.get, key := k, contentType := none,
                    responseContentDisposition := none,
                    responseContentType := none, expiresIn := 3600 })⟩, env)
              else
                (⟨200, SignBody.ok (SignOk.downloadUrl
                  { method := S3Method.get, key := k, contentType := none,
                    responseContentDisposition :=
                      some (attachmentDisposition (encodeURIComponent n)),
                    responseContentType := some octetStreamType,
                    expiresIn := 3600 })⟩, env)
            | none =>
              (⟨200, SignBody.ok (SignOk.downloadUrl
                { method := S3Method.get, key := k, contentType := none,
                  responseContentDisposition := none,
                  responseContentType := none, expiresIn := 3600 })⟩, env)
      else if req.action = some (str "delete") then
        match req.key with
        | none => (⟨400, SignBody.err typeErrorKeyMsg⟩, env)
        | some k =>
          if jsStartsWith k uid = false then
            (⟨400, SignBody.err unauthorizedAccessMsg⟩, env)
          else
            (⟨200, SignBody.ok SignOk.deleted⟩,
             { env with s3 := env.s3.filter (fun x => decide (x ≠ k)) })
      else (⟨400, SignBody.err (unknownActionMsg req.action)⟩, env)

/- Client-side metadata operations (Dashboard.tsx and ShareModal.tsx). -/

def FOLDER_MIME_TYPE : Str := str "application/x-directory"

/-- handleCreateFolder: the inserted files row for a new folder; the record id
is generated by the database and the storage key is synthetic. -/
def createFolderRecord (uid name uuid recId : Str) (parent : Option Str) : FileRec :=
  { id := recId, user_id := uid, name := name, size := 0,
    mime_type := FOLDER_MIME_TYPE, s3_key := str "folders/" ++ uuid,
    parent_id := parent }

/-- ShareModal createLink: inserts a shared_links row; the views column is not
supplied and takes its schema default of 0. -/
def createLink (links : List LinkRow) (fileId uid token : Str) (expiresAt : Nat) :
    List LinkRow :=
  links ++ [{ file_id := fileId, token := token, created_by := uid,
              expires_at := some expiresAt, views := 0 }]

/-- One round of the getRecursiveContents query: all records whose parent_id
is among the current frontier of folder ids. -/
def childrenOf (db : List FileRec) (frontier : List Str) : List FileRec :=
  db.filter (fun r => match r.parent_id with
    | some p => decide (p ∈ frontier)
    | none => false)

/-- The non-folder records of the current query round (the local `files` of
getRecursiveContents). -/
def levelFiles (db : List FileRec) (frontier : List Str) : List FileRec :=
  (childrenOf db frontier).filter (fun f => decide (f.mime_type ≠ FOLDER_MIME_TYPE))

/-- The folder records of the current query round (the local `folders` of
getRecursiveContents). -/
def levelFolders (db : List FileRec) (frontier : List Str) : List FileRec :=
  (childrenOf db frontier).filter (fun f => decide (f.mime_type = FOLDER_MIME_TYPE))

/-- getRecursiveContents: breadth-first collection of the ids and storage keys
of every record below the given folders.  The while loop of the source is
rendered with explicit fuel; `none` means the fuel ran out before the
frontier emptied. -/
def getRecursiveContentsFuel (db : List FileRec) :
    Nat → List Str → Option (List Str × List Str)
  | 0, frontier => if frontier.isEmpty then some ([], []) else none
  | fuel + 1, frontier =>
    if frontier.isEmpty then some ([], [])
    else
      match getRecursiveContentsFuel db fuel ((levelFolders db frontier).map (·.id)) with
      | none => none
      | some (ids, keys) =>
        some ((levelFiles db frontier).map (·.id) ++
                (levelFolders db frontier).map (·.id) ++ ids,
              (levelFiles db frontier).map (·.s3_key) ++
                (levelFolders db frontier).map (·.s3_key) ++ keys)

/-- The per-key S3 deletion loop of handleDelete: empty keys are skipped, a
failed deletion is recorded as a warning and the loop continues with the next
key.  `ok` tells whether the broker call for a key succeeded. -/
def s3DeleteLoop (ok : Str → Bool) : List Str → List Str
  | [] => []
  | k :: ks =>
    if k.isEmpty then s3DeleteLoop ok ks
    else if ok k then s3DeleteLoop ok ks
    else k :: s3DeleteLoop ok ks

/-- The folder ids among the selected items (handleDelete computes these from
the isFolders flags before expanding recursively). -/
def folderIdsOf (ids : List Str) (isFolders : List Bool) : List Str :=
  ((ids.zip isFolders).filter (fun p => p.2)).map (fun p => p.1)

/-- The ids of the files rows that the metadata delete query removes. -/
def deletedIdsOf (db : List FileRec) (idsToDelete : List Str) : List Str :=
  (db.filter (fun r => decide (r.id ∈ idsToDelete))).map (·.id)

/-- handleDelete: expands selected folders recursively, attempts the S3
deletions best-effort, then deletes the metadata rows in one query; the
shared_links rows cascade from the deleted files rows (migration part_003).
Returns the remaining files rows, the remaining shared_links rows and the
list of keys whose S3 deletion failed. -/
def handleDelete (db : List FileRec) (links : List LinkRow) (ids keys : List Str)
    (isFolders : List Bool) (ok : Str → Bool) (fuel : Nat) :
    Option (List FileRec × List LinkRow × List Str) :=
  match getRecursiveContentsFuel db fuel (folderIdsOf ids isFolders) with
  | none => none
  | some (childIds, childKeys) =>
    some (db.filter (fun r => decide (r.id ∉ ids ++ childIds)),
          links.filter (fun l => decide (l.file_id ∉ deletedIdsOf db (ids ++ childIds))),
          s3DeleteLoop ok (keys ++ childKeys))

/- Specification-side notions used to state the claims: the parent relation of
the files table, the ancestor chain of a record, and subtree membership. -/

/-- `ParentRel db p c` holds when some record with id `c` lists `p` as its
parent. -/
def ParentRel (db : List FileRec) (p c : Str) : Prop :=
  ∃ r ∈ db, r.id = c ∧ r.parent_id = some p

def parentOfId (db : List FileRec) (x : Str) : Option Str :=
  match db.find? (fun r => decide (r.id = x)) with
  | some r => r.parent_id
  | none => none

/-- The chain of ids obtained by walking parent pointers upward from `x`,
including `x` itself, cut off after the given number of hops. -/
def selfAndAncestors (db : List FileRec) : Nat → Str → List Str
  | 0, x => [x]
  | fuel + 1, x =>
    x :: (match parentOfId db x with
      | some p => selfAndAncestors db fuel p
      | none => [])

/-- `x` lies in the subtree rooted at `root` (walking at most `db.length`
parent hops, which suffices for any layered tree). -/
def inSubtree (db : List FileRec) (root x : Str) : Bool :=
  decide (root ∈ selfAndAncestors db db.length x)

def isStrictDescendant (db : List FileRec) (root x : Str) : Bool :=
  inSubtree db root x && decide (x ≠ root)

/-- The number of non-folder records strictly below `root`. -/
def numDescFiles (db : List FileRec) (root : Str) : Nat :=
  (db.filter (fun r =>
    isStrictDescendant db root r.id && decide (r.mime_type ≠ FOLDER_MIME_TYPE))).length

/-- The number of folder records strictly below `root`. -/
def numDescFolders (db : List FileRec) (root : Str) : Nat :=
  (db.filter (fun r =>
    isStrictDescendant db root r.id && decide (r.mime_type = FOLDER_MIME_TYPE))).length

/-- The number of share links whose target lies in the subtree of `root`. -/
def numSubtreeLinks (db : List FileRec) (links : List LinkRow) (root : Str) : Nat :=
  (links.filter (fun l => inSubtree db root l.file_id)).length

/- Basic lemmas about the embedded primitives. -/

theorem jsStartsWith_getElem {s p : Str} (h : jsStartsWith s p = true) :
    ∀ i, i < p.length → p[i]? = s[i]? := by
  induction p generalizing s with
  | nil => intro i hi; simp at hi
  | cons c cs ih =>
    cases s with
    | nil => simp [jsStartsWith] at h
    | cons b bs =>
      simp only [jsStartsWith, Bool.and_eq_true, decide_eq_true_eq] at h
      intro i hi
      cases i with
      | zero => simp [h.1]
      | succ j =>
        simp only [List.getElem?_cons_succ]
        exact ih h.2 j (by simpa using hi)

theorem fileRec_unique {db : List FileRec} (hnd : (db.map (·.id)).Nodup)
    {r q : FileRec} (hr : r ∈ db) (hq : q ∈ db) (h : r.id = q.id) : r = q := by
  induction db with
  | nil => cases hr
  | cons a t ih =>
    simp only [List.map_cons, List.nodup_cons] at hnd
    rcases List.mem_cons.mp hr with hr1 | hr2
    · rcases List.mem_cons.mp hq with hq1 | hq2
      · rw [hr1, hq1]
      · subst hr1
        rw [h] at hnd
        exact absurd (List.mem_map_of_mem (·.id) hq2) hnd.1
    · rcases List.mem_cons.mp hq with hq1 | hq2
      · subst hq1
        rw [← h] at hnd
        exact absurd (List.mem_map_of_mem (·.id) hr2) hnd.1
      · exact ih hnd.2 hr2 hq2

theorem find_by_id {db : List FileRec} (hnd : (db.map (·.id)).Nodup)
    {r : FileRec} (hr : r ∈ db) :
    db.find? (fun s => decide (s.id = r.id)) = some r := by
  induction db with
  | nil => cases hr
  | cons a t ih =>
    simp only [List.map_cons, List.nodup_cons] at hnd
    rcases List.mem_cons.mp hr with rfl | hr
    · exact List.find?_cons_of_pos _ (by simp)
    · rw [List.find?_cons_of_neg, ih hnd.2 hr]
      simp only [decide_eq_true_eq]
      intro hEq
      exact hnd.1 (hEq ▸ List.mem_map_of_mem (·.id) hr)

theorem parentOfId_eq {db : List FileRec} (hnd : (db.map (·.id)).Nodup)
    {r : FileRec} (hr : r ∈ db) : parentOfId db r.id = r.parent_id := by
  unfold parentOfId
  rw [find_by_id hnd hr]

theorem parentRel_of_parentOfId {db : List FileRec} {x p : Str}
    (h : parentOfId db x = some p) : ParentRel db p x := by
  unfold parentOfId at h
  cases hf : db.find? (fun r => decide (r.id = x)) with
  | none => rw [hf] at h; cases h
  | some r =>
    rw [hf] at h
    have hrid : r.id = x := by simpa using List.find?_some hf
    exact ⟨r, List.mem_of_find?_eq_some hf, hrid, h⟩

theorem selfAndAncestors_sound {db : List FileRec} :
    ∀ fuel x a, a ∈ selfAndAncestors db fuel x →
      Relation.ReflTransGen (ParentRel db) a x := by
  intro fuel
  induction fuel with
  | zero =>
    intro x a ha
    simp only [selfAndAncestors, List.mem_singleton] at ha
    exact ha ▸ Relation.ReflTransGen.refl
  | succ f ih =>
    intro x a ha
    simp only [selfAndAncestors, List.mem_cons] at ha
    rcases ha with rfl | ha
    · exact Relation.ReflTransGen.refl
    · cases hp : parentOfId db x with
      | none => rw [hp] at ha; cases ha
      | some p =>
        rw [hp] at ha
        exact Relation.ReflTransGen.tail (ih p a ha) (parentRel_of_parentOfId hp)

theorem parentRel_depth {db : List FileRec} {d : Str → Nat}
    (hpf : ∀ r ∈ db, ∀ p, r.parent_id = some p →
      ∃ q ∈ db, q.id = p ∧ q.mime_type = FOLDER_MIME_TYPE)
    (hd : ∀ r ∈ db, ∀ q ∈ db, r.parent_id = some q.id → d r.id = d q.id + 1)
    {p c : Str} (h : ParentRel db p c) : d c = d p + 1 := by
  obtain ⟨r, hr, hrid, hrpar⟩ := h
  obtain ⟨q, hq, hqid, _⟩ := hpf r hr p hrpar
  have hstep := hd r hr q hq (by rw [hqid]; exact hrpar)
  rw [hrid, hqid] at hstep
  exact hstep

theorem reflTransGen_depth_le {db : List FileRec} {d : Str → Nat}
    (hpf : ∀ r ∈ db, ∀ p, r.parent_id = some p →
      ∃ q ∈ db, q.id = p ∧ q.mime_type = FOLDER_MIME_TYPE)
    (hd : ∀ r ∈ db, ∀ q ∈ db, r.parent_id = some q.id → d r.id = d q.id + 1)
    {a x : Str} (h : Relation.ReflTransGen (ParentRel db) a x) : d a ≤ d x := by
  induction h with
  | refl => exact Nat.le_refl _
  | tail _ hbc ih =>
    have := parentRel_depth hpf hd hbc
    omega

theorem selfAndAncestors_complete {db : List FileRec} {d : Str → Nat}
    (hnd : (db.map (·.id)).Nodup)
    (hpf : ∀ r ∈ db, ∀ p, r.parent_id = some p →
      ∃ q ∈ db, q.id = p ∧ q.mime_type = FOLDER_MIME_TYPE)
    (hd : ∀ r ∈ db, ∀ q ∈ db, r.parent_id = some q.id → d r.id = d q.id + 1)
    {a x : Str} (h : Relation.ReflTransGen (ParentRel db) a x) :
    ∀ fuel, d x ≤ d a + fuel → a ∈ selfAndAncestors db fuel x := by
  induction h with
  | refl =>
    intro fuel _
    cases fuel <;> simp [selfAndAncestors]
  | @tail b c hab hbc ih =>
    intro fuel hfuel
    have hdc := parentRel_depth hpf hd hbc
    have hda := reflTransGen_depth_le hpf hd hab
    cases fuel with
    | zero => omega
    | succ f =>
      obtain ⟨r, hr, hrid, hrpar⟩ := hbc
      have hpid : parentOfId db c = some b := by
        have hpe := parentOfId_eq hnd hr
        rw [hrid] at hpe
        rw [hpe, hrpar]
      simp only [selfAndAncestors, hpid, List.mem_cons]
      exact Or.inr (ih f (by omega))

theorem inSubtree_self (db : List FileRec) (root : Str) :
    inSubtree db root root = true := by
  unfold inSubtree
  cases db.length <;> simp [selfAndAncestors]

theorem inSubtree_iff {db : List FileRec} {d : Str → Nat}
    (hnd : (db.map (·.id)).Nodup)
    (hpf : ∀ r ∈ db, ∀ p, r.parent_id = some p →
      ∃ q ∈ db, q.id = p ∧ q.mime_type = FOLDER_MIME_TYPE)
    (hd : ∀ r ∈ db, ∀ q ∈ db, r.parent_id = some q.id → d r.id = d q.id + 1)
    (hbound : ∀ r ∈ db, d r.id ≤ db.length)
    {root x : Str} (hx : ∃ r ∈ db, r.id = x) :
    inSubtree db root x = true ↔ Relation.ReflTransGen (ParentRel db) root x := by
  unfold inSubtree
  simp only [decide_eq_true_eq]
  constructor
  · exact selfAndAncestors_sound db.length x root
  · intro h
    obtain ⟨r, hr, rfl⟩ := hx
    exact selfAndAncestors_complete hnd hpf hd h db.length
      (by have := hbound r hr; omega)

theorem mem_childrenOf {db : List FileRec} {frontier : List Str} {r : FileRec} :
    r ∈ childrenOf db frontier ↔ r ∈ db ∧ ∃ p ∈ frontier, r.parent_id = some p := by
  unfold childrenOf
  rw [List.mem_filter]
  constructor
  · rintro ⟨hr, hb⟩
    refine ⟨hr, ?_⟩
    cases hpar : r.parent_id with
    | none => rw [hpar] at hb; cases hb
    | some p =>
      rw [hpar] at hb
      simp only [decide_eq_true_eq] at hb
      exact ⟨p, hb, rfl⟩
  · rintro ⟨hr, p, hp, hpar⟩
    refine ⟨hr, ?_⟩
    rw [hpar]
    simpa using hp

theorem bfs_sound {db : List FileRec} :
    ∀ fuel frontier ids keys,
      getRecursiveContentsFuel db fuel frontier = some (ids, keys) →
      ∀ x ∈ ids, ∃ a ∈ frontier, Relation.TransGen (ParentRel db) a x := by
  intro fuel
  induction fuel with
  | zero =>
    intro frontier ids keys h x hx
    unfold getRecursiveContentsFuel at h
    split at h
    · cases h; cases hx
    · cases h
  | succ f ih =>
    intro frontier ids keys h x hx
    unfold getRecursiveContentsFuel at h
    split at h
    · cases h; cases hx
    · cases hrec : getRecursiveContentsFuel db f ((levelFolders db frontier).map (·.id)) with
      | none => rw [hrec] at h; cases h
      | some pr =>
        obtain ⟨ids', keys'⟩ := pr
        rw [hrec] at h
        cases h
        rcases List.mem_append.mp hx with hx1 | hx2
        · rcases List.mem_append.mp hx1 with hxa | hxb
          · obtain ⟨r, hrmem, rfl⟩ := List.mem_map.mp hxa
            have hch := List.mem_filter.mp hrmem
            obtain ⟨hrdb, p, hp, hpar⟩ := mem_childrenOf.mp hch.1
            exact ⟨p, hp, Relation.TransGen.single ⟨r, hrdb, rfl, hpar⟩⟩
          · obtain ⟨r, hrmem, rfl⟩ := List.mem_map.mp hxb
            have hch := List.mem_filter.mp hrmem
            obtain ⟨hrdb, p, hp, hpar⟩ := mem_childrenOf.mp hch.1
            exact ⟨p, hp, Relation.TransGen.single ⟨r, hrdb, rfl, hpar⟩⟩
        · obtain ⟨y, hyF, htrans⟩ := ih _ _ _ hrec x hx2
          obtain ⟨q, hqmem, rfl⟩ := List.mem_map.mp hyF
          have hch := List.mem_filter.mp hqmem
          obtain ⟨hqdb, p, hp, hpar⟩ := mem_childrenOf.mp hch.1
          exact ⟨p, hp, Relation.TransGen.head ⟨q, hqdb, rfl, hpar⟩ htrans⟩

theorem bfs_complete {db : List FileRec} (hnd : (db.map (·.id)).Nodup)
    (hpf : ∀ r ∈ db, ∀ p, r.parent_id = some p →
      ∃ q ∈ db, q.id = p ∧ q.mime_type = FOLDER_MIME_TYPE) :
    ∀ fuel frontier ids keys,
      getRecursiveContentsFuel db fuel frontier = some (ids, keys) →
      ∀ a ∈ frontier, ∀ x, Relation.TransGen (ParentRel db) a x → x ∈ ids := by
  intro fuel
  induction fuel with
  | zero =>
    intro frontier ids keys h a ha x hx
    unfold getRecursiveContentsFuel at h
    split at h
    · next hemp =>
      rw [List.isEmpty_iff] at hemp
      subst hemp
      cases ha
    · cases h
  | succ f ih =>
    intro frontier ids keys h a ha x hx
    unfold getRecursiveContentsFuel at h
    split at h
    · next hemp =>
      rw [List.isEmpty_iff] at hemp
      subst hemp
      cases ha
    · cases hrec : getRecursiveContentsFuel db f ((levelFolders db frontier).map (·.id)) with
      | none => rw [hrec] at h; cases h
      | some pr =>
        obtain ⟨ids', keys'⟩ := pr
        rw [hrec] at h
        cases h
        rcases Relation.TransGen.head'_iff.mp hx with ⟨y, hay, hyx⟩
        obtain ⟨ry, hry, hryid, hrypar⟩ := hay
        have hychild : ry ∈ childrenOf db frontier :=
          mem_childrenOf.mpr ⟨hry, a, ha, hrypar⟩
        rcases Relation.reflTransGen_iff_eq_or_transGen.mp hyx with rfl | hyx2
        · by_cases hm : ry.mime_type = FOLDER_MIME_TYPE
          · have hxm : x ∈ (levelFolders db frontier).map (·.id) := by
              refine List.mem_map.mpr ⟨ry, ?_, hryid⟩
              exact List.mem_filter.mpr ⟨hychild, by simp [hm]⟩
            simp only [List.mem_map] at hxm
            simp [hxm]
          · have hxm : x ∈ (levelFiles db frontier).map (·.id) := by
              refine List.mem_map.mpr ⟨ry, ?_, hryid⟩
              exact List.mem_filter.mpr ⟨hychild, by simp [hm]⟩
            simp only [List.mem_map] at hxm
            simp [hxm]
        · rcases Relation.TransGen.head'_iff.mp hyx2 with ⟨z, hyz, _⟩
          obtain ⟨rz, hrz, _, hrzpar⟩ := hyz
          obtain ⟨q, hq, hqid, hqmime⟩ := hpf rz hrz y hrzpar
          have hryq : ry = q := fileRec_unique hnd hry hq (by rw [hryid, hqid])
          have hmime : ry.mime_type = FOLDER_MIME_TYPE := by rw [hryq]; exact hqmime
          have hyF : y ∈ (levelFolders db frontier).map (·.id) := by
            refine List.mem_map.mpr ⟨ry, ?_, hryid⟩
            exact List.mem_filter.mpr ⟨hychild, by simp [hmime]⟩
          have hxin := ih _ _ _ hrec y hyF x hyx2
          simp [hxin]

theorem length_filter_and_split {α : Type} (l : List α) (p q : α → Bool) :
    (l.filter p).length =
      (l.filter (fun a => p a && q a)).length +
      (l.filter (fun a => p a && !q a)).length := by
  induction l with
  | nil => rfl
  | cons a t ih =>
    simp only [List.filter_cons]
    by_cases hp : p a = true
    · by_cases hq : q a = true <;> simp [hp, hq, ih] <;> omega
    · simp only [Bool.not_eq_true] at hp
      simp [hp, ih]

theorem length_filter_id_eq {db : List FileRec} (hnd : (db.map (·.id)).Nodup)
    {r : FileRec} (hr : r ∈ db) :
    (db.filter (fun s => decide (s.id = r.id))).length = 1 := by
  induction db with
  | nil => cases hr
  | cons a t ih =>
    simp only [List.map_cons, List.nodup_cons] at hnd
    rcases List.mem_cons.mp hr with hr1 | hr2
    · subst hr1
      rw [List.filter_cons_of_pos (by simp)]
      have hnil : t.filter (fun s => decide (s.id = r.id)) = [] := by
        rw [List.filter_eq_nil_iff]
        intro s hs
        simp only [decide_eq_true_eq]
        intro hEq
        exact hnd.1 (hEq ▸ List.mem_map_of_mem (·.id) hs)
      rw [hnil]
      rfl
    · rw [List.filter_cons_of_neg, ih hnd.2 hr2]
      simp only [decide_eq_true_eq]
      intro hEq
      exact hnd.1 (hEq ▸ List.mem_map_of_mem (·.id) hr2)

theorem bfs_subtree_iff {db : List FileRec} {d : Str → Nat}
    (hnd : (db.map (·.id)).Nodup)
    (hpf : ∀ r ∈ db, ∀ p, r.parent_id = some p →
      ∃ q ∈ db, q.id = p ∧ q.mime_type = FOLDER_MIME_TYPE)
    (hd : ∀ r ∈ db, ∀ q ∈ db, r.parent_id = some q.id → d r.id = d q.id + 1)
    (hbound : ∀ r ∈ db, d r.id ≤ db.length)
    {rootId : Str} {fuel : Nat} {childIds childKeys : List Str}
    (hrun : getRecursiveContentsFuel db fuel [rootId] = some (childIds, childKeys))
    {r : FileRec} (hr : r ∈ db) :
    r.id ∈ rootId :: childIds ↔ inSubtree db rootId r.id = true := by
  rw [inSubtree_iff hnd hpf hd hbound ⟨r, hr, rfl⟩]
  constructor
  · intro h
    rcases List.mem_cons.mp h with heq | hmem
    · rw [heq]
    · obtain ⟨a, ha, ht⟩ := bfs_sound _ _ _ _ hrun _ hmem
      rcases List.mem_singleton.mp ha with rfl
      exact ht.to_reflTransGen
  · intro h
    rcases Relation.reflTransGen_iff_eq_or_transGen.mp h with heq | ht
    · exact List.mem_cons.mpr (Or.inl heq)
    · exact List.mem_cons.mpr
        (Or.inr (bfs_complete hnd hpf _ _ _ _ hrun rootId (by simp) _ ht))

/-- C6: deleting a folder that contains N nested files, M nested folders and
K share links pointing into the subtree deletes exactly 1 + N + M file/folder
records and exactly K share-link rows, regardless of tree depth: the
recursive traversal collects every descendant id at any depth, and the
share-link deletion cascades from the record deletions. -/
theorem c6_folder_delete_counts {db : List FileRec} {links : List LinkRow}
    {d : Str → Nat} {root : FileRec} {ok : Str → Bool} {fuel : Nat}
    {db2 : List FileRec} {links2 : List LinkRow} {warns : List Str}
    (hmem : root ∈ db) (hfolder : root.mime_type = FOLDER_MIME_TYPE)
    (hnd : (db.map (·.id)).Nodup)
    (hpf : ∀ r ∈ db, ∀ p, r.parent_id = some p →
      ∃ q ∈ db, q.id = p ∧ q.mime_type = FOLDER_MIME_TYPE)
    (hd : ∀ r ∈ db, ∀ q ∈ db, r.parent_id = some q.id → d r.id = d q.id + 1)
    (hbound : ∀ r ∈ db, d r.id ≤ db.length)
    (hFK : ∀ l ∈ links, ∃ r ∈ db, r.id = l.file_id)
    (hrun : handleDelete db links [root.id] [root.s3_key] [true] ok fuel =
      some (db2, links2, warns)) :
    db.length = db2.length +
      (1 + numDescFiles db root.id + numDescFolders db root.id) ∧
    links.length = links2.length + numSubtreeLinks db links root.id := by
  unfold handleDelete at hrun
  have hfid : folderIdsOf [root.id] [true] = [root.id] := rfl
  rw [hfid] at hrun
  cases hrec : getRecursiveContentsFuel db fuel [root.id] with
  | none => rw [hrec] at hrun; cases hrun
  | some pr =>
    obtain ⟨childIds, childKeys⟩ := pr
    rw [hrec] at hrun
    simp only [Option.some.injEq, Prod.mk.injEq, List.singleton_append] at hrun
    obtain ⟨hdb2, hlinks2, -⟩ := hrun
    have hchar : ∀ r ∈ db,
        (r.id ∈ root.id :: childIds ↔ inSubtree db root.id r.id = true) :=
      fun r hr => bfs_subtree_iff hnd hpf hd hbound hrec hr
    have hneg : db.filter (fun r => !(decide (r.id ∉ root.id :: childIds))) =
        db.filter (fun r => inSubtree db root.id r.id) := by
      apply List.filter_congr
      intro r hr
      rcases hchar r hr with ⟨h1, h2⟩
      by_cases hin : r.id ∈ root.id :: childIds
      · simp [hin, h1 hin]
      · have hsub : inSubtree db root.id r.id = false := by
          rcases Bool.eq_false_or_eq_true (inSubtree db root.id r.id) with hT | hF
          · exact absurd (h2 hT) hin
          · exact hF
        simp [hin, hsub]
    have hcnt : (db.filter (fun r => inSubtree db root.id r.id)).length =
        1 + numDescFiles db root.id + numDescFolders db root.id := by
      rw [length_filter_and_split db (fun r => inSubtree db root.id r.id)
        (fun r => decide (r.id = root.id))]
      have e1 : db.filter
          (fun r => inSubtree db root.id r.id && decide (r.id = root.id)) =
          db.filter (fun r => decide (r.id = root.id)) := by
        apply List.filter_congr
        intro r hr
        by_cases hid : r.id = root.id
        · simp [hid, inSubtree_self]
        · simp [hid]
      have e2 : db.filter
          (fun r => inSubtree db root.id r.id && !(decide (r.id = root.id))) =
          db.filter (fun r => isStrictDescendant db root.id r.id) := by
        apply List.filter_congr
        intro r hr
        simp [isStrictDescendant, decide_not]
      rw [e1, e2, length_filter_id_eq hnd hmem]
      rw [length_filter_and_split db (fun r => isStrictDescendant db root.id r.id)
        (fun r => decide (r.mime_type = FOLDER_MIME_TYPE))]
      have e4 : db.filter (fun r =>
          isStrictDescendant db root.id r.id &&
            !(decide (r.mime_type = FOLDER_MIME_TYPE))) =
          db.filter (fun r => isStrictDescendant db root.id r.id &&
            decide (r.mime_type ≠ FOLDER_MIME_TYPE)) := by
        apply List.filter_congr
        intro r hr
        simp [decide_not]
      rw [e4]
      unfold numDescFiles numDescFolders
      omega
    constructor
    · rw [← hdb2]
      have htot := List.length_eq_length_filter_add
        (l := db) (fun r => decide (r.id ∉ root.id :: childIds))
      rw [hneg, hcnt] at htot
      exact htot
    · have hcharL : ∀ l ∈ links,
          (l.file_id ∈ deletedIdsOf db (root.id :: childIds) ↔
            inSubtree db root.id l.file_id = true) := by
        intro l hl
        constructor
        · intro h
          obtain ⟨r, hrf, hrid⟩ := List.mem_map.mp h
          have hrmem := List.mem_filter.mp hrf
          have hin : r.id ∈ root.id :: childIds := by simpa using hrmem.2
          have hsub := (hchar r hrmem.1).mp hin
          rw [← hrid]
          exact hsub
        · intro h
          obtain ⟨r, hr, hrid⟩ := hFK l hl
          rw [← hrid] at h
          have hin := (hchar r hr).mpr h
          exact List.mem_map.mpr ⟨r, List.mem_filter.mpr ⟨hr, by simpa using hin⟩, hrid⟩
      have hnegL : links.filter
          (fun l => !(decide (l.file_id ∉ deletedIdsOf db (root.id :: childIds)))) =
          links.filter (fun l => inSubtree db root.id l.file_id) := by
        apply List.filter_congr
        intro l hl
        rcases hcharL l hl with ⟨h1, h2⟩
        by_cases hin : l.file_id ∈ deletedIdsOf db (root.id :: childIds)
        · simp [hin, h1 hin]
        · have hsub : inSubtree db root.id l.file_id = false := by
            rcases Bool.eq_false_or_eq_true (inSubtree db root.id l.file_id) with hT | hF
            · exact absurd (h2 hT) hin
            · exact hF
          simp [hin, hsub]
      rw [← hlinks2]
      have htot := List.length_eq_length_filter_add
        (l := links) (fun l => decide (l.file_id ∉ deletedIdsOf db (root.id :: childIds)))
      rw [hnegL] at htot
      unfold numSubtreeLinks
      exact htot

/- Concrete fixture: a two-level folder tree with two files, one nested
folder, one unrelated file and two share links. -/

def wRoot : FileRec :=
  { id := str "r0", user_id := str "u1", name := str "root", size := 0,
    mime_type := FOLDER_MIME_TYPE, s3_key := str "folders/aaa", parent_id := none }

def wF1 : FileRec :=
  { id := str "f1", user_id := str "u1", name := str "a.pdf", size := 7,
    mime_type := str "application/pdf", s3_key := str "u1/1-a.pdf",
    parent_id := some (str "r0") }

def wD1 : FileRec :=
  { id := str "d1", user_id := str "u1", name := str "sub", size := 0,
    mime_type := FOLDER_MIME_TYPE, s3_key := str "folders/bbb",
    parent_id := some (str "r0") }

def wF2 : FileRec :=
  { id := str "f2", user_id := str "u1", name := str "b.png", size := 9,
    mime_type := str "image/png", s3_key := str "u1/2-b.png",
    parent_id := some (str "d1") }

def wX9 : FileRec :=
  { id := str "x9", user_id := str "u1", name := str "c.txt", size := 3,
    mime_type := str "text/plain", s3_key := str "u1/3-c.txt", parent_id := none }

def wDb : List FileRec := [wRoot, wF1, wD1, wF2, wX9]

def wL1 : LinkRow :=
  { file_id := str "f2", token := str "t1", created_by := str "u1",
    expires_at := some 99, views := 0 }

def wL2 : LinkRow :=
  { file_id := str "x9", token := str "t2", created_by := str "u1",
    expires_at := some 99, views := 0 }

def wLinks : List LinkRow := [wL1, wL2]

def wDepth : Str → Nat := fun x =>
  if x = str "f2" then 2
  else if x = str "f1" then 1
  else if x = str "d1" then 1
  else 0

/-- Witness for c6_folder_delete_counts: on the concrete tree, deleting the
root folder removes 1 + 2 + 1 records and 1 share link. -/
theorem c6_folder_delete_counts_witness :
    (wRoot ∈ wDb ∧ wRoot.mime_type = FOLDER_MIME_TYPE ∧
      (wDb.map (·.id)).Nodup ∧
      (∀ r ∈ wDb, ∀ p, r.parent_id = some p →
        ∃ q ∈ wDb, q.id = p ∧ q.mime_type = FOLDER_MIME_TYPE) ∧
      (∀ r ∈ wDb, ∀ q ∈ wDb, r.parent_id = some q.id →
        wDepth r.id = wDepth q.id + 1) ∧
      (∀ r ∈ wDb, wDepth r.id ≤ wDb.length) ∧
      (∀ l ∈ wLinks, ∃ r ∈ wDb, r.id = l.file_id) ∧
      handleDelete wDb wLinks [wRoot.id] [wRoot.s3_key] [true] (fun _ => false) 5 =
        some ([wX9], [wL2],
          [str "folders/aaa", str "u1/1-a.pdf", str "folders/bbb", str "u1/2-b.png"])) ∧
    wDb.length = [wX9].length +
      (1 + numDescFiles wDb wRoot.id + numDescFolders wDb wRoot.id) ∧
    wLinks.length = [wL2].length + numSubtreeLinks wDb wLinks wRoot.id := by
  have hpf : ∀ r ∈ wDb, ∀ p, r.parent_id = some p →
      ∃ q ∈ wDb, q.id = p ∧ q.mime_type = FOLDER_MIME_TYPE := by
    have hcore : ∀ r ∈ wDb, r.parent_id = none ∨
        ∃ q ∈ wDb, some q.id = r.parent_id ∧ q.mime_type = FOLDER_MIME_TYPE := by
      decide
    intro r hr p hp
    rcases hcore r hr with h0 | ⟨q, hq, hqid, hqm⟩
    · rw [h0] at hp; cases hp
    · rw [hp] at hqid
      exact ⟨q, hq, Option.some.inj hqid, hqm⟩
  refine ⟨⟨by decide, by decide, by decide, hpf, by decide, by decide, by decide,
    by decide⟩, ?_⟩
  exact @c6_folder_delete_counts wDb wLinks wDepth wRoot (fun _ => false) 5
    [wX9] [wL2] [str "folders/aaa", str "u1/1-a.pdf", str "folders/bbb", str "u1/2-b.png"]
    (by decide) (by decide) (by decide) hpf (by decide) (by decide) (by decide) (by decide)

/- Shared helper lemmas for the delete pipeline. -/

theorem s3DeleteLoop_eq_filter (ok : Str → Bool) (ks : List Str) :
    s3DeleteLoop ok ks = ks.filter (fun x => !x.isEmpty && !ok x) := by
  induction ks with
  | nil => rfl
  | cons a t ih =>
    unfold s3DeleteLoop
    by_cases h1 : a.isEmpty
    · simp [h1, ih]
    · by_cases h2 : ok a <;> simp [h1, h2, ih]

theorem handleDelete_oracle {db : List FileRec} {links : List LinkRow}
    {ids keys : List Str} {isF : List Bool} {ok1 ok2 : Str → Bool} {fuel : Nat}
    {r1 r2 : List FileRec × List LinkRow × List Str}
    (h1 : handleDelete db links ids keys isF ok1 fuel = some r1)
    (h2 : handleDelete db links ids keys isF ok2 fuel = some r2) :
    r1.1 = r2.1 ∧ r1.2.1 = r2.2.1 := by
  unfold handleDelete at h1 h2
  cases hrec : getRecursiveContentsFuel db fuel (folderIdsOf ids isF) with
  | none => rw [hrec] at h1; cases h1
  | some pr =>
    obtain ⟨childIds, childKeys⟩ := pr
    rw [hrec] at h1 h2
    simp only [Option.some.injEq] at h1 h2
    rw [← h1, ← h2]
    exact ⟨rfl, rfl⟩

theorem folders_key_not_owned {uid rest : Str}
    (hlen : uid.length = 36) (hdash : uid[8]? = some '-')
    (hrest : rest[0]? ≠ some '-') :
    jsStartsWith (str "folders/" ++ rest) uid = false := by
  by_contra h
  rw [Bool.not_eq_false] at h
  have h8 := jsStartsWith_getElem h 8 (by omega)
  rw [hdash] at h8
  have happ : (str "folders/" ++ rest)[8]? = rest[0]? := by
    rw [List.getElem?_append_right (by decide)]
    have hl8 : (8 : Nat) - (str "folders/").length = 0 := by decide
    rw [hl8]
  rw [happ] at h8
  exact hrest h8.symm

/-- A broker response is well formed when it is a 200 success, a 400 error
with a message, or the 401 Unauthorized issued only to unauthenticated
callers. -/
def wellFormedResp (user : Option Str) (r : SignResp) : Prop :=
  (∃ s, r = ⟨200, SignBody.ok s⟩) ∨ (∃ m, r = ⟨400, SignBody.err m⟩) ∨
  (r = ⟨401, SignBody.err unauthorizedMsg⟩ ∧ user = none)

/- Claim theorems. -/

/-- C1: the ownership check of download and delete is a plain string
startsWith, not a separator-terminated prefix match, so caller u1, whose
identity is a proper string-prefix of the owner segment u10 of the key
u10/file.txt, is granted a signed URL and a deletion (HTTP 200) instead of
the Unauthorized the claim requires: the code grants cross-user access at
this input. -/
theorem c1_proper_string_prefix_caller_granted :
    (str "u10/file.txt").takeWhile (fun c => decide (c ≠ '/')) = str "u10" ∧
    str "u10" ≠ str "u1" ∧
    s3Sign ⟨[], [], [str "u10/file.txt"]⟩ (some (str "u1"))
      ⟨some (str "download"), none, none, some (str "u10/file.txt"), none⟩ 0 =
      (⟨200, SignBody.ok (SignOk.downloadUrl
        ⟨S3Method.get, str "u10/file.txt", none, none, none, 3600⟩)⟩,
       ⟨[], [], [str "u10/file.txt"]⟩) ∧
    s3Sign ⟨[], [], [str "u10/file.txt"]⟩ (some (str "u1"))
      ⟨some (str "delete"), none, none, some (str "u10/file.txt"), none⟩ 0 =
      (⟨200, SignBody.ok SignOk.deleted⟩, ⟨[], [], []⟩) := by
  decide

/-- C2: for every valid non-expired token, public_download returns a signed
URL whose response Content-Disposition is always attachment carrying the
stored display name (URI-encoded) and an octet-stream response content type,
for every stored mime type of the file. -/
theorem c2_public_download_always_attachment {env : BrokerEnv}
    {user : Option Str} {req : SignReq} {now : Nat} {t : Str} {l : LinkRow}
    {f : FileRec}
    (hA : req.action = some (str "public_download"))
    (hT : req.token = some t) (hne : t ≠ [])
    (hL : env.links.filter (fun x => decide (x.token = t)) = [l])
    (hexp : ¬ jsDate l.expires_at < now)
    (hF : env.files.filter (fun x => decide (x.id = l.file_id)) = [f]) :
    s3Sign env user req now =
      (⟨200, SignBody.ok (SignOk.publicFile
        { method := S3Method.get, key := f.s3_key, contentType := none,
          responseContentDisposition :=
            some (attachmentDisposition (encodeURIComponent f.name)),
          responseContentType := some octetStreamType,
          expiresIn := 3600 } (pubInfo f))⟩, env) := by
  unfold s3Sign
  rw [if_pos hA, hT]
  have hne2 : t.isEmpty = false := by
    rcases t with _ | ⟨c, cs⟩
    · exact absurd rfl hne
    · rfl
  simp only [hne2, Bool.false_eq_true, if_false, hL, hF, singleRow]
  rw [if_neg hexp]

def pLink : LinkRow :=
  { file_id := str "f1", token := str "tok1", created_by := str "u1",
    expires_at := some 5000, views := 0 }

def pFile : FileRec :=
  { id := str "f1", user_id := str "u1", name := str "page.html", size := 44,
    mime_type := str "text/html", s3_key := str "u1/7-page.html",
    parent_id := none }

def pEnv : BrokerEnv := ⟨[pLink], [pFile], []⟩

def pReq : SignReq :=
  ⟨some (str "public_download"), none, none, none, some (str "tok1")⟩

/-- Witness for c2_public_download_always_attachment: a text/html file is
still served with an attachment disposition. -/
theorem c2_public_download_always_attachment_witness :
    (pReq.action = some (str "public_download") ∧ (str "tok1") ≠ ([] : Str) ∧
      pEnv.links.filter (fun x => decide (x.token = str "tok1")) = [pLink] ∧
      ¬ jsDate pLink.expires_at < 100 ∧
      pEnv.files.filter (fun x => decide (x.id = pLink.file_id)) = [pFile]) ∧
    s3Sign pEnv none pReq 100 =
      (⟨200, SignBody.ok (SignOk.publicFile
        { method := S3Method.get, key := pFile.s3_key, contentType := none,
          responseContentDisposition :=
            some (attachmentDisposition (encodeURIComponent pFile.name)),
          responseContentType := some octetStreamType,
          expiresIn := 3600 } (pubInfo pFile))⟩, pEnv) :=
  ⟨⟨rfl, by decide, by decide, by decide, by decide⟩,
    @c2_public_download_always_attachment pEnv none pReq 100 (str "tok1") pLink
      pFile rfl rfl (by decide) (by decide) (by decide) (by decide)⟩

/-- C3: on an authenticated download of an owned key, no supplied display
name (or an empty one) leaves the signed URL without any response
Content-Disposition or content type override (inline rendering allowed);
a supplied non-empty name always yields an attachment disposition built from
the URI-encoded name together with the generic binary content type, and the
encoder percent-escapes every non-ASCII character. -/
theorem c3_download_disposition_branch {env : BrokerEnv} {user : Option Str}
    {req : SignReq} {now : Nat} {uid k : Str}
    (hU : user = some uid)
    (hA : req.action = some (str "download"))
    (hK : req.key = some k)
    (hOwn : jsStartsWith k uid = true) :
    (jsTruthy req.fileName = false →
      s3Sign env user req now =
        (⟨200, SignBody.ok (SignOk.downloadUrl
          ⟨S3Method.get, k, none, none, none, 3600⟩)⟩, env)) ∧
    (∀ n, req.fileName = some n → n ≠ [] →
      s3Sign env user req now =
        (⟨200, SignBody.ok (SignOk.downloadUrl
          ⟨S3Method.get, k, none,
            some (attachmentDisposition (encodeURIComponent n)),
            some octetStreamType, 3600⟩)⟩, env)) ∧
    (∀ c : Char, 128 ≤ c.toNat → (encodeURIComponentChar c).head? = some '%') := by
  have hmain : ∀ res : SignResp × BrokerEnv,
      (match req.fileName with
        | some n =>
          if n.isEmpty then
            (⟨200, SignBody.ok (SignOk.downloadUrl
              ⟨S3Method.get, k, none, none, none, 3600⟩)⟩, env)
          else
            (⟨200, SignBody.ok (SignOk.downloadUrl
              ⟨S3Method.get, k, none,
                some (attachmentDisposition (encodeURIComponent n)),
                some octetStreamType, 3600⟩)⟩, env)
        | none =>
          (⟨200, SignBody.ok (SignOk.downloadUrl
            ⟨S3Method.get, k, none, none, none, 3600⟩)⟩, env)) = res →
      s3Sign env user req now = res := by
    intro res hres
    unfold s3Sign
    rw [hA, hU, hK]
    rw [if_neg (by decide)]
    dsimp only
    rw [if_neg (by decide), if_pos rfl]
    rw [if_neg (by simp [hOwn])]
    exact hres
  refine ⟨?_, ?_, ?_⟩
  · intro hfn
    cases hfn2 : req.fileName with
    | none => exact hmain _ (by rw [hfn2])
    | some n =>
      rw [hfn2] at hfn
      have hemp : n.isEmpty = true := by simpa [jsTruthy] using hfn
      exact hmain _ (by rw [hfn2]; simp [hemp])
  · intro n hn hne
    have hemp : n.isEmpty = false := by
      rcases n with _ | _
      · exact absurd rfl hne
      · rfl
    exact hmain _ (by rw [hn]; simp [hemp])
  · intro c hc
    have h1 : isUnescapedJS c = false := by
      unfold isUnescapedJS
      simp only [Bool.or_eq_false_iff, Bool.and_eq_false_iff,
        decide_eq_false_iff_not, Nat.not_le, beq_eq_false_iff_ne, ne_eq]
      omega
    unfold encodeURIComponentChar
    rw [if_neg (by simp [h1])]
    unfold utf8Bytes
    rw [if_neg (by omega)]
    by_cases h2 : c.toNat < 2048
    · rw [if_pos h2]; rfl
    · rw [if_neg h2]
      by_cases h3 : c.toNat < 65536
      · rw [if_pos h3]; rfl
      · rw [if_neg h3]; rfl

def dReqPlain : SignReq :=
  ⟨some (str "download"), none, none, some (str "u1/9-x.bin"), none⟩

def dReqNamed : SignReq :=
  ⟨some (str "download"), some (str "résumé.pdf"), none,
   some (str "u1/9-x.bin"), none⟩

/-- Witness for c3_download_disposition_branch: the thumbnail request gets an
inline URL, the named download request gets the attachment disposition. -/
theorem c3_download_disposition_branch_witness :
    (jsStartsWith (str "u1/9-x.bin") (str "u1") = true ∧
      jsTruthy dReqPlain.fileName = false) ∧
    s3Sign ⟨[], [], []⟩ (some (str "u1")) dReqPlain 0 =
      (⟨200, SignBody.ok (SignOk.downloadUrl
        ⟨S3Method.get, str "u1/9-x.bin", none, none, none, 3600⟩)⟩,
       ⟨[], [], []⟩) ∧
    s3Sign ⟨[], [], []⟩ (some (str "u1")) dReqNamed 0 =
      (⟨200, SignBody.ok (SignOk.downloadUrl
        ⟨S3Method.get, str "u1/9-x.bin", none,
          some (attachmentDisposition (encodeURIComponent (str "résumé.pdf"))),
          some octetStreamType, 3600⟩)⟩, ⟨[], [], []⟩) :=
  ⟨⟨by decide, by decide⟩,
   (@c3_download_disposition_branch ⟨[], [], []⟩ (some (str "u1")) dReqPlain 0
     (str "u1") (str "u1/9-x.bin") rfl rfl rfl (by decide)).1 (by decide),
   (@c3_download_disposition_branch ⟨[], [], []⟩ (some (str "u1")) dReqNamed 0
     (str "u1") (str "u1/9-x.bin") rfl rfl rfl (by decide)).2.1
     (str "résumé.pdf") rfl (by decide)⟩

/-- C4 counterexample: the three public_download failure modes return three
pairwise distinct error messages (all with status 400), so the observable
error response distinguishes a nonexistent token from an expired one and
from a dangling file reference, contrary to the claim. -/
theorem c4_error_messages_distinguishable :
    s3Sign ⟨[], [], []⟩ none
      ⟨some (str "public_download"), none, none, none, some (str "t1")⟩ 50 =
      (⟨400, SignBody.err (str "Invalid or expired link")⟩, ⟨[], [], []⟩) ∧
    s3Sign ⟨[⟨str "f1", str "t1", str "u1", some 10, 0⟩], [], []⟩ none
      ⟨some (str "public_download"), none, none, none, some (str "t1")⟩ 50 =
      (⟨400, SignBody.err (str "Link expired")⟩,
       ⟨[⟨str "f1", str "t1", str "u1", some 10, 0⟩], [], []⟩) ∧
    s3Sign ⟨[⟨str "f1", str "t1", str "u1", some 99, 0⟩], [], []⟩ none
      ⟨some (str "public_download"), none, none, none, some (str "t1")⟩ 50 =
      (⟨400, SignBody.err (str "File not found")⟩,
       ⟨[⟨str "f1", str "t1", str "u1", some 99, 0⟩], [], []⟩) ∧
    str "Invalid or expired link" ≠ str "Link expired" ∧
    str "Invalid or expired link" ≠ str "File not found" ∧
    str "Link expired" ≠ str "File not found" := by
  decide

/-- C4 amended: every public_download failure is a status-400 response whose
body is one of four fixed constant strings, none of which carries any file
attribute (existence beyond the failure mode, owner, or size); the failure
modes themselves remain distinguishable by message. -/
theorem c4_generic_constant_errors {env : BrokerEnv} {user : Option Str}
    {req : SignReq} {now : Nat} {st : Nat} {m : Str}
    (hA : req.action = some (str "public_download"))
    (h : (s3Sign env user req now).1 = ⟨st, SignBody.err m⟩) :
    st = 400 ∧
    (m = str "Token required" ∨ m = str "Invalid or expired link" ∨
     m = str "Link expired" ∨ m = str "File not found") := by
  unfold s3Sign at h
  rw [if_pos hA] at h
  repeat' split at h
  all_goals simp_all

/-- Witness for c4_generic_constant_errors at a nonexistent token. -/
theorem c4_generic_constant_errors_witness :
    (s3Sign ⟨[], [], []⟩ none
      ⟨some (str "public_download"), none, none, none, some (str "t1")⟩ 50).1 =
      ⟨400, SignBody.err (str "Invalid or expired link")⟩ ∧
    (400 = 400 ∧
     (str "Invalid or expired link" = str "Token required" ∨
      str "Invalid or expired link" = str "Invalid or expired link" ∨
      str "Invalid or expired link" = str "Link expired" ∨
      str "Invalid or expired link" = str "File not found")) :=
  ⟨by decide,
   @c4_generic_constant_errors ⟨[], [], []⟩ none
     ⟨some (str "public_download"), none, none, none, some (str "t1")⟩ 50 400
     (str "Invalid or expired link") rfl (by decide)⟩

/-- C5: a token whose stored expiry timestamp is strictly earlier than the
clock at call time, even by one second, deterministically yields the expired
failure of the invalid-or-expired-link taxonomy (status 400, no signed URL),
by a timestamp comparison against the call-time clock. -/
theorem c5_expired_token_rejected {env : BrokerEnv} {user : Option Str}
    {req : SignReq} {now e : Nat} {t : Str} {l : LinkRow}
    (hA : req.action = some (str "public_download"))
    (hT : req.token = some t) (hne : t ≠ [])
    (hL : env.links.filter (fun x => decide (x.token = t)) = [l])
    (hE : l.expires_at = some e) (hlt : e < now) :
    s3Sign env user req now = (⟨400, SignBody.err (str "Link expired")⟩, env) := by
  unfold s3Sign
  rw [if_pos hA, hT]
  have hne2 : t.isEmpty = false := by
    rcases t with _ | ⟨c, cs⟩
    · exact absurd rfl hne
    · rfl
  simp only [hne2, Bool.false_eq_true, if_false, hL, singleRow]
  rw [if_pos (by rw [hE]; exact hlt)]

def eLink : LinkRow :=
  { file_id := str "f1", token := str "tok1", created_by := str "u1",
    expires_at := some 1000, views := 0 }

/-- Witness for c5_expired_token_rejected: the link expired exactly one
second before the call. -/
theorem c5_expired_token_rejected_witness :
    ((str "tok1") ≠ ([] : Str) ∧ eLink.expires_at = some 1000 ∧ 1000 < 2000) ∧
    s3Sign ⟨[eLink], [], []⟩ none
      ⟨some (str "public_download"), none, none, none, some (str "tok1")⟩ 2000 =
      (⟨400, SignBody.err (str "Link expired")⟩, ⟨[eLink], [], []⟩) :=
  ⟨⟨by decide, rfl, by decide⟩,
   @c5_expired_token_rejected ⟨[eLink], [], []⟩ none
     ⟨some (str "public_download"), none, none, none, some (str "tok1")⟩ 2000
     1000 (str "tok1") eLink rfl rfl (by decide) (by decide) rfl (by decide)⟩

/-- C7: every broker response is a 200 success with a result body, a 400
error with a JSON error string (validation and authorization failures,
including the thrown ownership errors), or a 401 Unauthorized error issued
exactly when an authenticated operation is called without a valid user; in
particular an unauthenticated non-public request always yields 401. -/
theorem c7_response_status_discipline (env : BrokerEnv) (user : Option Str)
    (req : SignReq) (now : Nat) :
    wellFormedResp user (s3Sign env user req now).1 ∧
    (user = none → req.action ≠ some (str "public_download") →
      (s3Sign env user req now).1 = ⟨401, SignBody.err unauthorizedMsg⟩) := by
  constructor
  · unfold s3Sign wellFormedResp
    repeat' split
    all_goals simp_all
  · intro hu hact
    unfold s3Sign
    rw [if_neg hact, hu]

/-- Witness for c7_response_status_discipline: an unauthenticated download
request receives 401 Unauthorized, and an authenticated request gets a
well-formed response. -/
theorem c7_response_status_discipline_witness :
    (s3Sign ⟨[], [], []⟩ none
      ⟨some (str "download"), none, none, some (str "u2/x"), none⟩ 0).1 =
      ⟨401, SignBody.err unauthorizedMsg⟩ ∧
    wellFormedResp (some (str "u1"))
      (s3Sign ⟨[], [], []⟩ (some (str "u1"))
        ⟨some (str "download"), none, none, some (str "u2/x"), none⟩ 0).1 :=
  ⟨(c7_response_status_discipline ⟨[], [], []⟩ none
      ⟨some (str "download"), none, none, some (str "u2/x"), none⟩ 0).2 rfl
      (by decide),
   (c7_response_status_discipline ⟨[], [], []⟩ (some (str "u1"))
      ⟨some (str "download"), none, none, some (str "u2/x"), none⟩ 0).1⟩

/-- C8: deleting a nonexistent object-store key still succeeds with 200 and
leaves the store unchanged (idempotent delete); the per-key deletion loop of
recursive folder deletion records every failed key as a warning and
continues (it filters, never truncates), and the metadata deletions of
handleDelete are identical under any two object-store failure patterns. -/
theorem c8_idempotent_delete_loop_continues {env : BrokerEnv}
    {user : Option Str} {req : SignReq} {now : Nat} {uid k : Str}
    (hU : user = some uid) (hA : req.action = some (str "delete"))
    (hK : req.key = some k)
    (hOwn : jsStartsWith k uid = true) (hmiss : k ∉ env.s3) :
    s3Sign env user req now = (⟨200, SignBody.ok SignOk.deleted⟩, env) ∧
    (∀ ok ks, s3DeleteLoop ok ks = ks.filter (fun x => !x.isEmpty && !ok x)) ∧
    (∀ (db : List FileRec) (links : List LinkRow) ids keys isF
        (ok1 ok2 : Str → Bool) fuel r1 r2,
      handleDelete db links ids keys isF ok1 fuel = some r1 →
      handleDelete db links ids keys isF ok2 fuel = some r2 →
      r1.1 = r2.1 ∧ r1.2.1 = r2.2.1) := by
  refine ⟨?_, fun ok ks => s3DeleteLoop_eq_filter ok ks,
    fun db links ids keys isF ok1 ok2 fuel r1 r2 h1 h2 =>
      handleDelete_oracle h1 h2⟩
  unfold s3Sign
  rw [hA, hU, hK, if_neg (by decide)]
  dsimp only
  rw [if_neg (by decide), if_neg (by decide), if_pos rfl]
  rw [if_neg (by simp [hOwn])]
  have hself : env.s3.filter (fun x => decide (x ≠ k)) = env.s3 := by
    apply List.filter_eq_self.mpr
    intro x hx
    simp only [decide_eq_true_eq]
    intro hEq
    exact hmiss (hEq ▸ hx)
  rw [hself]

/-- Witness for c8_idempotent_delete_loop_continues: deleting a key that is
not in the store succeeds and changes nothing. -/
theorem c8_idempotent_delete_loop_continues_witness :
    (jsStartsWith (str "u1/zzz") (str "u1") = true ∧
      (str "u1/zzz") ∉ [str "u1/other"]) ∧
    s3Sign ⟨[], [], [str "u1/other"]⟩ (some (str "u1"))
      ⟨some (str "delete"), none, none, some (str "u1/zzz"), none⟩ 0 =
      (⟨200, SignBody.ok SignOk.deleted⟩, ⟨[], [], [str "u1/other"]⟩) :=
  ⟨⟨by decide, by decide⟩,
   (@c8_idempotent_delete_loop_continues ⟨[], [], [str "u1/other"]⟩
     (some (str "u1"))
     ⟨some (str "delete"), none, none, some (str "u1/zzz"), none⟩ 0
     (str "u1") (str "u1/zzz") rfl rfl rfl (by decide) (by decide)).1⟩

/-- C9: folder records are created with a synthetic key of the form
folders/uuid; since a user identity is a 36-character UUID with a dash at
index 8 while position 8 of such a key is the first character of the uuid
suffix (never a dash), the key never starts with any user identity, so an
authenticated delete or download on a folder key fails with the Unauthorized
access error; recursive folder deletion nevertheless performs the same
metadata deletions as with an always-succeeding object store, the failures
surfacing only as warnings. -/
theorem c9_folder_keys_unauthorized_delete_completes
    {uid name uuid recId rest : Str} {parent : Option Str}
    {env : BrokerEnv} {now : Nat}
    (hlen : uid.length = 36) (hdash : uid[8]? = some '-')
    (hrest : rest[0]? ≠ some '-') :
    (createFolderRecord uid name uuid recId parent).s3_key =
      str "folders/" ++ uuid ∧
    (createFolderRecord uid name uuid recId parent).mime_type =
      FOLDER_MIME_TYPE ∧
    jsStartsWith (str "folders/" ++ rest) uid = false ∧
    s3Sign env (some uid)
      ⟨some (str "delete"), none, none, some (str "folders/" ++ rest), none⟩ now =
      (⟨400, SignBody.err unauthorizedAccessMsg⟩, env) ∧
    s3Sign env (some uid)
      ⟨some (str "download"), none, none, some (str "folders/" ++ rest), none⟩ now =
      (⟨400, SignBody.err unauthorizedAccessMsg⟩, env) ∧
    (∀ (db : List FileRec) (links : List LinkRow) ids keys isF fuel res,
      handleDelete db links ids keys isF (fun kk => jsStartsWith kk uid) fuel =
        some res →
      ∃ w2, handleDelete db links ids keys isF (fun _ => true) fuel =
        some (res.1, res.2.1, w2)) := by
  have hns := folders_key_not_owned hlen hdash hrest
  refine ⟨rfl, rfl, hns, ?_, ?_, ?_⟩
  · unfold s3Sign
    dsimp only
    rw [if_neg (by decide), if_neg (by decide), if_neg (by decide), if_pos rfl]
    rw [if_pos hns]
  · unfold s3Sign
    dsimp only
    rw [if_neg (by decide), if_neg (by decide), if_pos rfl]
    rw [if_pos hns]
  · intro db links ids keys isF fuel res h
    unfold handleDelete at h ⊢
    cases hrec : getRecursiveContentsFuel db fuel (folderIdsOf ids isF) with
    | none => rw [hrec] at h; cases h
    | some pr =>
      obtain ⟨childIds, childKeys⟩ := pr
      rw [hrec] at h
      simp only [Option.some.injEq] at h
      exact ⟨s3DeleteLoop (fun _ => true) (keys ++ childKeys), by rw [← h]⟩

def uuidCaller : Str := str "123e4567-e89b-12d3-a456-426614174000"

/-- Witness for c9_folder_keys_unauthorized_delete_completes with a concrete
UUID caller and a concrete folder key. -/
theorem c9_folder_keys_unauthorized_delete_completes_witness :
    (uuidCaller.length = 36 ∧ uuidCaller[8]? = some '-' ∧
      (str "aaa")[0]? ≠ some '-') ∧
    jsStartsWith (str "folders/" ++ str "aaa") uuidCaller = false ∧
    s3Sign ⟨[], [], []⟩ (some uuidCaller)
      ⟨some (str "delete"), none, none, some (str "folders/" ++ str "aaa"),
       none⟩ 0 =
      (⟨400, SignBody.err unauthorizedAccessMsg⟩, ⟨[], [], []⟩) :=
  ⟨⟨by decide, by decide, by decide⟩,
   (@c9_folder_keys_unauthorized_delete_completes uuidCaller (str "n")
     (str "aaa") (str "r1") (str "aaa") none ⟨[], [], []⟩ 0
     (by decide) (by decide) (by decide)).2.2.1,
   (@c9_folder_keys_unauthorized_delete_completes uuidCaller (str "n")
     (str "aaa") (str "r1") (str "aaa") none ⟨[], [], []⟩ 0
     (by decide) (by decide) (by decide)).2.2.2.1⟩

/-- C10: public_download leaves the entire state (shared_links, files and
object store) unchanged for every request; no broker action writes the
metadata tables; share-link creation only appends a row whose view counter
is the schema default 0; and cascading deletion only removes link rows, so
no operation in the system ever increments a views value. -/
theorem c10_public_download_read_only :
    (∀ (env : BrokerEnv) (user : Option Str) (req : SignReq) (now : Nat),
      req.action = some (str "public_download") →
      (s3Sign env user req now).2 = env) ∧
    (∀ (env : BrokerEnv) (user : Option Str) (req : SignReq) (now : Nat),
      (s3Sign env user req now).2.links = env.links ∧
      (s3Sign env user req now).2.files = env.files) ∧
    (∀ (links : List LinkRow) (fid uid tok : Str) (exp : Nat),
      ∀ l ∈ createLink links fid uid tok exp, l ∈ links ∨ l.views = 0) ∧
    (∀ (db : List FileRec) (links : List LinkRow) ids keys isF
        (ok : Str → Bool) fuel db2 links2 w,
      handleDelete db links ids keys isF ok fuel = some (db2, links2, w) →
      ∀ l ∈ links2, l ∈ links) := by
  refine ⟨?_, ?_, ?_, ?_⟩
  · intro env user req now h
    unfold s3Sign
    rw [if_pos h]
    repeat' split
    all_goals rfl
  · intro env user req now
    constructor
    · unfold s3Sign
      repeat' split
      all_goals rfl
    · unfold s3Sign
      repeat' split
      all_goals rfl
  · intro links fid uid tok exp l hl
    rcases List.mem_append.mp hl with h1 | h2
    · exact Or.inl h1
    · right
      rw [List.mem_singleton.mp h2]
  · intro db links ids keys isF ok fuel db2 links2 w h l hl
    unfold handleDelete at h
    cases hrec : getRecursiveContentsFuel db fuel (folderIdsOf ids isF) with
    | none => rw [hrec] at h; cases h
    | some pr =>
      obtain ⟨childIds, childKeys⟩ := pr
      rw [hrec] at h
      simp only [Option.some.injEq, Prod.mk.injEq] at h
      obtain ⟨-, hl2, -⟩ := h
      rw [← hl2] at hl
      exact (List.mem_filter.mp hl).1

/-- Witness for c10_public_download_read_only: a public_download request with
an unknown token leaves the state untouched, and a freshly created share
link has a view counter of 0. -/
theorem c10_public_download_read_only_witness :
    (s3Sign ⟨[eLink], [], [str "u1/a"]⟩ none
      ⟨some (str "public_download"), none, none, none, some (str "nope")⟩ 0).2 =
      ⟨[eLink], [], [str "u1/a"]⟩ ∧
    (∀ l ∈ createLink [] (str "f1") (str "u1") (str "t9") 77,
      l ∈ ([] : List LinkRow) ∨ l.views = 0) :=
  ⟨(c10_public_download_read_only).1 ⟨[eLink], [], [str "u1/a"]⟩ none
      ⟨some (str "public_download"), none, none, none, some (str "nope")⟩ 0 rfl,
   (c10_public_download_read_only).2.2.1 [] (str "f1") (str "u1") (str "t9") 77⟩
